import Mathlib

/-!
Verification of the sound-visualisation web app (`web_app.py`).

The Python source is shallowly embedded:
  * an RGB pixel is a triple of naturals (each channel an 8-bit value),
    an image a list of rows of pixels;
  * NumPy uint8 arithmetic is `Nat` arithmetic with an explicit `% 256`
    where the dtype wraps, and explicit clamping where OpenCV saturates;
  * Python/NumPy float arithmetic is modelled over `ℚ`; where the exact
    IEEE-754 double value is observable (the pydub chunk length) the
    embedding uses the exact rational value of the double and a
    round-to-nearest-even double rounding function;
  * fallible code returns `Option`/`Except`;
  * the in-place/aliasing behaviour of `encode_image` is embedded as a
    small store of arrays addressed by identifiers.
-/

namespace VisSound

/-- An RGB pixel: (r, g, b), each intended to be `< 256`. -/
abbrev Px := ℕ × ℕ × ℕ

/-- An image: a list of rows of pixels. -/
abbrev Img := List (List Px)

/-- A single-channel (grayscale) image. -/
abbrev Img1 := List (List ℕ)

/-- Floor of a rational as a kernel-computable function (`q.den` is
positive, so Euclidean division of the numerator is the floor). -/
def qfloor (q : ℚ) : ℤ := q.num / (q.den : ℤ)

/-- Ceiling of a rational, kernel-computable. -/
def qceil (q : ℚ) : ℤ := -qfloor (-q)

/-- Round half to even (the rounding used by `cvRound` / IEEE-754 nearest). -/
def rhe (q : ℚ) : ℤ :=
  let f := qfloor q
  let r := q - f
  if r < 1/2 then f
  else if 1/2 < r then f + 1
  else if f % 2 = 0 then f else f + 1

/-- `np.clip(x, lo, hi)` on scalars (`min (max x lo) hi`, written with
explicit comparisons). -/
def npClip (x lo hi : ℚ) : ℚ :=
  if x < lo then lo else if hi < x then hi else x

/-- `np.uint8` applied to a nonnegative float value: truncation toward zero
(equals `⌊·⌋` on the nonnegative values occurring here), reduced mod 256 as
the dtype wraps. -/
def npUint8 (q : ℚ) : ℕ := (qfloor q).toNat % 256

/-- One step of Python `max(…, key=abs)`: a later element replaces the
current one only when its key is strictly greater. -/
def absStep (acc y : ℚ) : ℚ := if |acc| < |y| then y else acc

/-- `max(amplitudes, key=abs)` (web_app.py line 117); `none` on the empty
window, where Python `max` raises `ValueError`. -/
def maxByAbs : List ℚ → Option ℚ
  | [] => none
  | x :: xs => some (xs.foldl absStep x)

/-- The brightness factor computed by `encode_image` (web_app.py lines
117–122): clip the max-abs sample to [-0.3, 0.3], negate, add 0.7. -/
def brightnessFactor (amps : List ℚ) : Option ℚ :=
  (maxByAbs amps).map (fun m => -(npClip m (-3/10) (3/10)) + 7/10)

/-- The specification's description of the reduced peak: an occurrence of a
window element of maximal absolute value all of whose earlier elements have
strictly smaller absolute value (i.e. the first occurrence of the maximum in
iteration order). -/
def IsFirstMaxAbs (amps : List ℚ) (m : ℚ) : Prop :=
  ∃ pre post, amps = pre ++ m :: post ∧
    (∀ y ∈ amps, |y| ≤ |m|) ∧ (∀ y ∈ pre, |y| < |m|)

/-- The resize loop of `process_image` (web_app.py lines 58–62): while either
dimension exceeds 500, halve both (Python `int(x / 2)` truncates; both
dimensions stay below 2^53 so the float division is exact). -/
def halveLoop (w h : ℕ) : ℕ × ℕ :=
  if w > 500 ∨ h > 500 then halveLoop (w / 2) (h / 2) else (w, h)
termination_by w + h
decreasing_by
  rcases ‹w > 500 ∨ h > 500› with hw | hh
  · have : w / 2 < w := Nat.div_lt_self (by omega) (by omega)
    have : h / 2 ≤ h := Nat.div_le_self h 2
    omega
  · have : h / 2 < h := Nat.div_lt_self (by omega) (by omega)
    have : w / 2 ≤ w := Nat.div_le_self w 2
    omega

/-! ## Image preparation (`process_image`, web_app.py lines 55–93) -/

/-- OpenCV 8-bit `COLOR_RGB2GRAY`: fixed-point BT.601 luma,
`(R*4899 + G*9617 + B*1868 + 8192) >> 14`. -/
def rgb2gray (p : Px) : ℕ :=
  (p.1 * 4899 + p.2.1 * 9617 + p.2.2 * 1868 + 8192) / 16384

/-- `cv2.resize(img, (w, h))`.  Only the output dimensions are load-bearing
for the claims below; the resampling itself (bilinear in OpenCV) is modelled
as index-scaling sampling. -/
def cvResize (img : Img) (w h : ℕ) : Img :=
  let oh := img.length
  let ow := (img.headD []).length
  (List.range h).map fun i => (List.range w).map fun j =>
    ((img.getD (i * oh / h) []).getD (j * ow / w) (0, 0, 0))

/-- `cv2.resize` on a single-channel image. -/
def cvResize1 (img : Img1) (w h : ℕ) : Img1 :=
  let oh := img.length
  let ow := (img.headD []).length
  (List.range h).map fun i => (List.range w).map fun j =>
    ((img.getD (i * oh / h) []).getD (j * ow / w) 0)

/-- The binarised mask (web_app.py lines 71–72): grayscale value `> 0`
selects a foreground pixel (the `* 255` step preserves exactly this
predicate). -/
def maskSelects (p : Px) : Bool := 0 < rgb2gray p

/-- `cv2.bitwise_or(img, img, mask=m)`: the image where the mask byte is
non-zero, zeros (black) elsewhere. -/
def maskedImage (keep : Px → Bool) (img mask : Img) : Img :=
  List.zipWith (List.zipWith fun mp ip => if keep mp then ip else (0, 0, 0)) mask img

/-- The foreground layer (web_app.py line 74). -/
def imgForeground (img mask : Img) : Img := maskedImage maskSelects img mask

/-- The background layer (web_app.py line 75): mask `cv2.bitwise_not` of the
binary mask, i.e. the complement selection. -/
def imgBackground (img mask : Img) : Img :=
  maskedImage (fun p => !maskSelects p) img mask

/-- Pixelwise sum without any wrapping (used to state reconstruction). -/
def imgSum (a b : Img) : Img :=
  List.zipWith (List.zipWith fun (p q : Px) =>
    (p.1 + q.1, p.2.1 + q.2.1, p.2.2 + q.2.2)) a b

/-- Two images have the same shape (same row count, rows of equal length). -/
def SameShape (a b : Img) : Prop := a.map List.length = b.map List.length

/-- Python slice-index normalisation for an axis of size `n`: a negative
index counts from the end (clamped below at 0), a nonnegative one is clamped
above at `n`. -/
def sliceNorm (n : ℕ) (i : ℤ) : ℕ :=
  if i < 0 then ((n : ℤ) + i).toNat else Nat.min i.toNat n

/-- NumPy 2-D basic-slice assignment `dest[r0:r1, c0:c1] = src` on a
rectangular `dest`.  Broadcasting allows a source axis to match the
destination slice length or to be 1; any other mismatch raises
`ValueError: could not broadcast`. -/
def npSliceAssign2d (dest : Img1) (r0 r1 c0 c1 : ℤ) (src : Img1) :
    Except String Img1 :=
  let n := dest.length
  let m := (dest.headD []).length
  let rs := sliceNorm n r0
  let re := sliceNorm n r1
  let cs := sliceNorm m c0
  let ce := sliceNorm m c1
  let rl := re - rs
  let cl := ce - cs
  let ah := src.length
  let aw := (src.headD []).length
  if (ah = rl ∨ ah = 1) ∧ (aw = cl ∨ aw = 1) then
    .ok ((List.range n).map fun r =>
      let row := dest.getD r []
      if rs ≤ r ∧ r < re then
        (List.range m).map fun c =>
          if cs ≤ c ∧ c < ce then
            (if ah = 1 then src.getD 0 [] else src.getD (r - rs) []).getD
              (if aw = 1 then 0 else c - cs) 0
          else row.getD c 0
      else row)
  else .error "could not broadcast input array into slice shape"

/-- The watermark destination slice of `process_image` (web_app.py lines
86–88): rows `h - ah - 10 : h - 10`, columns `w - aw - 10 : w - 10` of an
all-zero `h × w` canvas, assigned the `ah × aw` resized sign. -/
def signStamp (h w : ℕ) (sign : Img1) : Except String Img1 :=
  let ah := sign.length
  let aw := (sign.headD []).length
  npSliceAssign2d (List.replicate h (List.replicate w 0))
    ((h : ℤ) - ah - 10) ((h : ℤ) - 10)
    ((w : ℤ) - aw - 10) ((w : ℤ) - 10) sign

/-- The normalised row/column starts actually written by `signStamp`
(where the glyph ends up). -/
def signStampStart (h w : ℕ) (sign : Img1) : ℕ × ℕ :=
  (sliceNorm h ((h : ℤ) - sign.length - 10),
   sliceNorm w ((w : ℤ) - (sign.headD []).length - 10))

/-- `cv2.addWeighted(bg, 1.0, sign, 0.5, 0, bg)` per channel:
`saturate_cast<uchar>(bg + 0.5 * s)` (round half to even, clamp to
[0, 255]). -/
def addWeightedPx (b s : ℕ) : ℕ :=
  let z := rhe ((b : ℚ) + (s : ℚ) / 2)
  (if z < 0 then 0 else if 255 < z then 255 else z).toNat

/-- The full `process_image` (web_app.py lines 55–93).  Inputs: the fixed
sign glyph (already grayscale, as loaded with `IMREAD_GRAYSCALE`), the image
and the optional mask.  Returns (resized image, foreground, watermarked
background); the watermark slice assignment can raise (see `signStamp`). -/
def process_image (sign : Img1) (img : Img) (mask : Option Img) :
    Except String (Img × Img × Img) :=
  let h0 := img.length
  let w0 := (img.headD []).length
  let (w, h) := halveLoop w0 h0
  let rimg := cvResize img w h
  let (fg, bg) :=
    match mask with
    | none => (rimg, List.replicate h (List.replicate w (0, 0, 0)))
    | some mk =>
      let rmask := cvResize mk w h
      (imgForeground rimg rmask, imgBackground rimg rmask)
  -- Sign: binarise, scale by 0.15 (`int(dim * 0.15)` truncates; the IEEE
  -- double 0.15 exceeds 3/20 by < 2⁻⁵⁴, so the truncation equals ⌊3·dim/20⌋
  -- for all realistic dimensions), resize, place on a zero canvas.
  let signBin := sign.map (List.map fun x => if 0 < x then 255 else 0)
  let ah := 3 * signBin.length / 20
  let aw := 3 * (signBin.headD []).length / 20
  let rsign := cvResize1 signBin aw ah
  match signStamp h w rsign with
  | .error e => .error e
  | .ok canvas =>
    -- np.stack to 3 channels, then addWeighted in place into the background.
    let bg' := List.zipWith (List.zipWith fun (p : Px) (s : ℕ) =>
      (addWeightedPx p.1 s, addWeightedPx p.2.1 s, addWeightedPx p.2.2 s)) bg canvas
    .ok (rimg, fg, bg')

/-! ## Input validation (`load_image`, web_app.py lines 161–186) -/

/-- The validation failures surfaced by `load_image` (each shown as a
`st.warning` followed by `st.stop()`). -/
inductive InvalidInputError where
  | sizeMismatch (imgSize maskSize : ℕ × ℕ)
  | imgChannels (c : ℕ)
  | maskChannels (c : ℕ)
  deriving DecidableEq, Repr

/-- A decoded upload: its pixel grid (meaningful when `channels = 3`) and
the channel count of the underlying array. -/
structure RawImage where
  pix : Img
  channels : ℕ
  deriving DecidableEq, Repr

/-- PIL `.size` — (width, height). -/
def RawImage.size (r : RawImage) : ℕ × ℕ :=
  ((r.pix.headD []).length, r.pix.length)

/-- The validation sequence of `load_image` (web_app.py lines 161–186), in
source order: the PIL size comparison (before any conversion or resizing),
then the image channel-count check, then the mask channel-count check. -/
def loadImageChecks (img : RawImage) (mask : Option RawImage) :
    Except InvalidInputError Unit :=
  match mask with
  | some m =>
    if img.size ≠ m.size then .error (.sizeMismatch img.size m.size)
    else if img.channels ≠ 3 then .error (.imgChannels img.channels)
    else if m.channels ≠ 3 then .error (.maskChannels m.channels)
    else .ok ()
  | none =>
    if img.channels ≠ 3 then .error (.imgChannels img.channels) else .ok ()

/-- Errors of the full preparation pipeline: a validation failure or a
runtime error from `process_image`. -/
inductive PrepError where
  | invalid (e : InvalidInputError)
  | runtime (msg : String)
  deriving DecidableEq, Repr

/-- The preparation pipeline (the spec's `prepare`): `load_image`'s checks,
then `process_image`.  A validation failure stops the script
(`st.stop()`), so no foreground/background layers are produced. -/
def prepare (sign : Img1) (img : RawImage) (mask : Option RawImage) :
    Except PrepError (Img × Img × Img) :=
  match loadImageChecks img mask with
  | .error e => .error (.invalid e)
  | .ok () =>
    match process_image sign img.pix (mask.map RawImage.pix) with
    | .error e => .error (.runtime e)
    | .ok r => .ok r

/-! ## Amplitude encoder (`adjust_brightness` / `encode_image`,
web_app.py lines 46–51 and 115–126) -/

/-- OpenCV's 8-bit saturation-division table for `RGB2HSV`:
`saturate_cast<int>((255 << 12) / v)` (`cvRound`, half to even). -/
def sdivTable (v : ℕ) : ℤ := if v = 0 then 0 else rhe (1044480 / (v : ℚ))

/-- OpenCV's 8-bit hue-division table for `RGB2HSV` with hue range 180:
`saturate_cast<int>((180 << 12) / (6 * d))`. -/
def hdivTable (d : ℕ) : ℤ := if d = 0 then 0 else rhe (737280 / (6 * (d : ℚ)))

/-- OpenCV 8-bit `COLOR_RGB2HSV` (hue range 180), per pixel: the integer
algorithm with 12-bit fixed point and arithmetic shifts (`Int.fdiv` is the
arithmetic right shift). -/
def rgb2hsvPx : Px → Px := fun p =>
  let r := p.1
  let g := p.2.1
  let b := p.2.2
  let v := Nat.max r (Nat.max g b)
  let vmin := Nat.min r (Nat.min g b)
  let diff := v - vmin
  let s : ℕ := (((diff : ℤ) * sdivTable v + 2048).fdiv 4096).toNat
  let hraw : ℤ :=
    if v = r then (g : ℤ) - b
    else if v = g then (b : ℤ) - r + 2 * diff
    else (r : ℤ) - g + 4 * diff
  let h1 : ℤ := (hraw * hdivTable diff + 2048).fdiv 4096
  ((if h1 < 0 then h1 + 180 else h1).toNat, s, v)

/-- OpenCV 8-bit `COLOR_HSV2RGB` (hue range 180): the float algorithm on
`h ∈ [0,180]`, `s/255`, `v/255`, scaled back by 255 with `saturate_cast`
(round half to even, clamp).  Float arithmetic is modelled exactly over `ℚ`
(the float32 constant `6f/180f` is `1/30` up to a relative error `< 2⁻²⁴`,
immaterial to every concrete evaluation below, which has `s = 0`). -/
def hsv2rgbPx : Px → Px := fun p =>
  let h := p.1
  let s := p.2.1
  let v := p.2.2
  if s = 0 then (v, v, v)
  else
    let hf1 : ℚ := (h : ℚ) * (1 / 30)
    let hf := if 6 ≤ hf1 then hf1 - 6 else hf1
    let sf : ℚ := (s : ℚ) / 255
    let vf : ℚ := (v : ℚ) / 255
    let sector := (qfloor hf).toNat
    let frac := hf - qfloor hf
    let tab : ℕ → ℚ := fun k =>
      if k = 0 then vf
      else if k = 1 then vf * (1 - sf)
      else if k = 2 then vf * (1 - sf * frac)
      else vf * (1 - sf * (1 - frac))
    let sd : ℕ × ℕ × ℕ :=
      if sector = 0 then (1, 3, 0)
      else if sector = 1 then (1, 0, 2)
      else if sector = 2 then (3, 0, 1)
      else if sector = 3 then (0, 2, 1)
      else if sector = 4 then (0, 1, 3)
      else (2, 1, 0)
    let out : ℚ → ℕ := fun x =>
      let z := rhe (x * 255)
      (if z < 0 then 0 else if 255 < z then 255 else z).toNat
    (out (tab sd.2.2), out (tab sd.2.1), out (tab sd.1))

/-- `adjust_brightness(img, value)` (web_app.py lines 46–51): to HSV,
value channel scaled by `value` in float, `np.uint8` (truncation), back to
RGB.  `np.uint8` leaves the integer H and S channels unchanged. -/
def adjust_brightness (img : Img) (value : ℚ) : Img :=
  img.map (List.map fun p =>
    let q := rgb2hsvPx p
    hsv2rgbPx (q.1, q.2.1, npUint8 ((q.2.2 : ℚ) * value)))

/-- `np.add` on two `uint8` arrays: elementwise sum reduced mod 256 (the
dtype wraps; there is no saturation). -/
def imgWrapAdd (a b : Img) : Img :=
  List.zipWith (List.zipWith fun (p q : Px) =>
    ((p.1 + q.1) % 256, (p.2.1 + q.2.1) % 256, (p.2.2 + q.2.2) % 256)) a b

/-- The clipped-sum composite the specification describes (for comparison):
each channel saturated at 255 instead of wrapping. -/
def imgClipAdd (a b : Img) : Img :=
  List.zipWith (List.zipWith fun (p q : Px) =>
    (min (p.1 + q.1) 255, min (p.2.1 + q.2.1) 255, min (p.2.2 + q.2.2) 255)) a b

/-- `encode_image` (web_app.py lines 115–126) without the overlay
(`should_plot=False`, the default): peak, clip, negate, brightness-adjust
the foreground, `np.add` with the background (`np.asarray(·, dtype=uint8)`
on an array already of dtype uint8 is the identity).  `none` when the
window is empty (`max()` raises). -/
def encode_image (amps : List ℚ) (fg bg : Img) : Option Img :=
  (maxByAbs amps).map fun m =>
    let m1 := npClip m (-3/10) (3/10)
    let m2 := -m1
    imgWrapAdd (adjust_brightness fg (m2 + 7/10)) bg

/-! ## Overlay drawing (`draw_horz_sound`, web_app.py lines 95–113) -/

/-- Python 3 `round`: round half to even. -/
def pyRound (q : ℚ) : ℤ := rhe q

/-- The endpoint of index `k` of the amplitude polyline on an `H × W`
image: `(round(20 + k·step_x), round((H-50) - a_k·step_y))` with
`step_x = (W/4)/len` and `step_y = (H/5)/6`.  Positive amplitude reduces
the y-coordinate, i.e. deflects upward. -/
def tracePoint (H W : ℕ) (amps : List ℚ) (k : ℕ) : ℤ × ℤ :=
  let stepx : ℚ := ((W : ℚ) / 4) / amps.length
  let stepy : ℚ := ((H : ℚ) / 5) / 6
  (pyRound (20 + k * stepx), pyRound (((H : ℚ) - 50) - amps.getD k 0 * stepy))

/-- The segment drawn at loop index `i` of `draw_horz_sound`: it connects
the points of samples `i` and `i + 1`. -/
def traceSegment (H W : ℕ) (amps : List ℚ) (i : ℕ) : (ℤ × ℤ) × (ℤ × ℤ) :=
  (tracePoint H W amps i, tracePoint H W amps (i + 1))

/-- `draw_horz_sound` (web_app.py lines 95–113) as the ordered list of
`cv2.line` calls it performs: the loop is `for i in range(0, len - 2)`.
`none` on the empty window (`box_width_px / num_points` raises
`ZeroDivisionError`). -/
def draw_horz_sound (H W : ℕ) (amps : List ℚ) :
    Option (List ((ℤ × ℤ) × (ℤ × ℤ))) :=
  if amps.length = 0 then none
  else some ((List.range (amps.length - 2)).map (traceSegment H W amps))

/-- The drawing behaviour the specification claims (for comparison, worded
from the spec): every pair of consecutive samples is connected — loop over
`range(len - 1)` — and the drawing is a no-op exactly for windows of length
less than 2. -/
def drawHorzSoundClaimed (H W : ℕ) (amps : List ℚ) :
    Option (List ((ℤ × ℤ) × (ℤ × ℤ))) :=
  if amps.length = 0 then none
  else some ((List.range (amps.length - 1)).map (traceSegment H W amps))

/-! ## Aliasing model of `encode_image`

The mutation/freshness claim is about NumPy array objects, so the relevant
calls are embedded against a store of arrays addressed by identifiers.
Array contents are rational-valued pixels (`uint8` arrays are embedded as
integral rationals, the intermediate `float32` HSV array keeps its exact
rational values). -/

/-- A rational-valued pixel grid (a NumPy array's contents). -/
abbrev ArrQ := List (List (ℚ × ℚ × ℚ))

/-- An integer image as stored array contents. -/
def ofImg (img : Img) : ArrQ :=
  img.map (List.map fun p => ((p.1 : ℚ), (p.2.1 : ℚ), (p.2.2 : ℚ)))

/-- Read back an integral array as an integer image. -/
def toImg (a : ArrQ) : Img :=
  a.map (List.map fun p =>
    ((qfloor p.1).toNat, (qfloor p.2.1).toNat, (qfloor p.2.2).toNat))

/-- The array store: contents by identifier, plus the next fresh id. -/
structure Store where
  mem : ℕ → ArrQ
  next : ℕ

/-- Allocate a fresh array. -/
def Store.alloc (s : Store) (v : ArrQ) : ℕ × Store :=
  (s.next, ⟨fun i => if i = s.next then v else s.mem i, s.next + 1⟩)

/-- Write an existing array in place. -/
def Store.write (s : Store) (id : ℕ) (v : ArrQ) : Store :=
  ⟨fun i => if i = id then v else s.mem i, s.next⟩

/-- The pixel effect of the overlay drawing on the merged array (modelled:
the rasterisation of `cv2.line` is abstracted to marking the in-bounds
segment endpoints with the drawing colour (255,255,255); only the facts
that it mutates the merged array in place and leaves every other array
untouched are load-bearing). -/
def drawOnto (a : ArrQ) (H W : ℕ) (amps : List ℚ) : ArrQ :=
  let pts := (List.range (amps.length - 2)).flatMap fun i =>
    [tracePoint H W amps i, tracePoint H W amps (i + 1)]
  a.mapIdx fun r row => row.mapIdx fun c px =>
    if ((r : ℤ), (c : ℤ)) ∈ pts.map (fun p => (p.2, p.1)) then
      ((255 : ℚ), (255 : ℚ), (255 : ℚ))
    else px

/-- `encode_image` as a trace over the array store (web_app.py lines
115–126, with `adjust_brightness`, lines 46–51, inlined step by step):
`cv2.cvtColor` allocates, `astype` allocates, the in-place `*=` writes,
`np.uint8` allocates, `cv2.cvtColor` allocates, `np.add` allocates,
`draw_horz_sound` writes the merged array, and `np.asarray(·, uint8)` on a
uint8 array returns the same object.  Returns the id of the composite and
the final store. -/
def encodeImageTrace (amps : List ℚ) (fgId bgId : ℕ) (shouldPlot : Bool)
    (s : Store) : Option (ℕ × Store) :=
  (maxByAbs amps).map fun m =>
    let value := -(npClip m (-3/10) (3/10)) + 7/10
    let fg := toImg (s.mem fgId)
    -- cv2.cvtColor(img, COLOR_RGB2HSV): fresh array
    let hsv := fg.map (List.map rgb2hsvPx)
    let (idHsv, s1) := s.alloc (ofImg hsv)
    -- img.astype(np.float32): fresh array
    let (idF, s2) := s1.alloc (s1.mem idHsv)
    -- img[:, :, 2] *= value: in-place on the float array
    let s3 := s2.write idF ((s2.mem idF).map (List.map fun p =>
      (p.1, p.2.1, p.2.2 * value)))
    -- np.uint8(img): fresh array (truncation per channel)
    let (idU, s4) := s3.alloc (ofImg (toImg ((s3.mem idF).map (List.map fun p =>
      (p.1, p.2.1, (qfloor p.2.2 % 256 : ℤ))))))
    -- cv2.cvtColor(img, COLOR_HSV2RGB): fresh array
    let (idFg, s5) := s4.alloc (ofImg ((toImg (s4.mem idU)).map (List.map hsv2rgbPx)))
    -- np.add(img_foreground, img_background): fresh array
    let merged := imgWrapAdd (toImg (s5.mem idFg)) (toImg (s5.mem bgId))
    let (idM, s6) := s5.alloc (ofImg merged)
    -- draw_horz_sound(merged_image, …): in-place on the merged array
    let s7 := if shouldPlot then
        s6.write idM (drawOnto (s6.mem idM) merged.length
          ((merged.headD []).length) amps)
      else s6
    -- np.asarray(merged_image, dtype=np.uint8): same object
    (idM, s7)

/-! ## Frame sequencing (`visualize_youtube_video`, web_app.py lines
301–367) -/

/-- The common significand of the IEEE-754 doubles `(1/fps) * 1000` for the
app's frame-rate options. -/
def chunkSig : ℕ := 4691249611844267

/-- `chunk_ms = (1 / fps) * 1000` (web_app.py line 339), evaluated in
IEEE-754 double precision for the frame rates offered by the app's radio
button (30, 60, 120, 240 — web_app.py line 324); each value slightly
exceeds the exact 1000/fps.  Other frame rates are unreachable and get the
exact value. -/
def chunkMs (F : ℕ) : ℚ :=
  if F = 30 then (chunkSig : ℚ) / 140737488355328
  else if F = 60 then (chunkSig : ℚ) / 281474976710656
  else if F = 120 then (chunkSig : ℚ) / 562949953421312
  else if F = 240 then (chunkSig : ℚ) / 1125899906842624
  else 1000 / (F : ℚ)

/-- Normalise a positive rational to `m × u` with `m ∈ [2^52, 2^53)`
(fuel-bounded; 4500 steps cover the entire double range). -/
def rdLoop : ℕ → ℚ → ℚ → ℚ × ℚ
  | 0, m, u => (m, u)
  | n + 1, m, u =>
    if m < 4503599627370496 then rdLoop n (m * 2) (u / 2)
    else if 9007199254740992 ≤ m then rdLoop n (m / 2) (u * 2)
    else (m, u)

/-- Round a nonnegative rational to the nearest IEEE-754 double (half to
even); only nonnegative arguments occur in this development. -/
def roundDouble (q : ℚ) : ℚ :=
  if q ≤ 0 then 0
  else
    let p := rdLoop 4500 q 1
    (rhe p.1 : ℚ) * p.2

/-- The number of chunks `pydub.utils.make_chunks` produces for a clip of
`L` whole milliseconds: `ceil(len / float(chunk_length))`, the division
performed in double precision. -/
def numFrames (L F : ℕ) : ℕ :=
  (qceil (roundDouble ((L : ℚ) / chunkMs F))).toNat

/-- An audio clip: fixed sample rate, mono PCM samples. -/
structure Clip where
  rate : ℕ
  samples : List ℤ
  deriving DecidableEq, Repr

/-- pydub `len(segment)`: its length in milliseconds (rounded). -/
def Clip.lenMs (c : Clip) : ℕ :=
  (rhe ((c.samples.length : ℚ) * 1000 / c.rate)).toNat

/-- pydub millisecond-to-frame-index conversion
(`int(ms * (frame_rate / 1000.0))`). -/
def msToFrameIdx (ms : ℚ) (rate : ℕ) : ℕ := (qfloor (ms * rate / 1000)).toNat

/-- The normalised amplitude window of chunk `i`
(`np.array(chunk.get_array_of_samples()) / 10000`, web_app.py line 346). -/
def chunkWindow (c : Clip) (F : ℕ) (i : ℕ) : List ℚ :=
  let n := c.samples.length
  let s := Nat.min (msToFrameIdx (roundDouble ((i : ℚ) * chunkMs F)) c.rate) n
  let e := Nat.min (msToFrameIdx (roundDouble (((i : ℚ) + 1) * chunkMs F)) c.rate) n
  ((c.samples.drop s).take (e - s)).map fun x => (x : ℚ) / 10000

/-- A WAV file: PCM samples stored verbatim
(`cut_audio.export(name, "wav")`, web_app.py line 353). -/
structure WavFile where
  rate : ℕ
  data : List ℤ
  deriving DecidableEq, Repr

/-- Export the cut clip to WAV: lossless PCM. -/
def exportWav (c : Clip) : WavFile := ⟨c.rate, c.samples⟩

/-- `AudioFileClip(name)` reading the WAV back (web_app.py line 354). -/
def audioFileClip (w : WavFile) : Clip := ⟨w.rate, w.data⟩

/-- The built video: ordered frames (each an encoded composite — `none` if
the encoder raised — paired with its display duration in seconds) plus the
attached audio track. -/
structure VideoArtifact where
  frames : List (Option Img × ℚ)
  audio : Clip
  deriving Repr

/-- The video-export path of `visualize_youtube_video` (web_app.py lines
336–357): chunk the cut clip at `chunk_ms`, encode one frame per chunk with
the overlay enabled, give each `ImageClip` duration `1/fps` seconds
(`set_duration(1/fps)`; the IEEE double differs from 1/fps by less than
2⁻⁵⁸ and the value is not computed with further, so it is modelled
exactly), and attach the original cut audio exported to WAV — not audio
reassembled from the chunks. -/
def buildVideo (c : Clip) (fg bg : Img) (F : ℕ) : VideoArtifact :=
  { frames := (List.range (numFrames c.lenMs F)).map fun i =>
      (encode_image (chunkWindow c F i) fg bg, 1 / (F : ℚ))
    audio := audioFileClip (exportWav c) }

/-! ## Helper lemmas -/

/-- `qfloor` agrees with the mathematical floor. -/
theorem qfloor_eq (q : ℚ) : qfloor q = ⌊q⌋ := Rat.floor_def.symm

/-- `qceil` agrees with the mathematical ceiling. -/
theorem qceil_eq (q : ℚ) : qceil q = ⌈q⌉ := by
  rw [qceil, qfloor_eq, Int.floor_neg, neg_neg]

/-- The fold underlying `maxByAbs` returns either the accumulator (which then
dominates the list) or a list element that strictly dominates the accumulator
and everything before its occurrence, and dominates everything after it. -/
theorem foldl_absStep_spec (l : List ℚ) (acc : ℚ) :
    (l.foldl absStep acc = acc ∧ ∀ y ∈ l, |y| ≤ |acc|) ∨
    (∃ pre post, l = pre ++ l.foldl absStep acc :: post ∧
      |acc| < |l.foldl absStep acc| ∧
      (∀ y ∈ pre, |y| < |l.foldl absStep acc|) ∧
      (∀ y ∈ post, |y| ≤ |l.foldl absStep acc|)) := by
  induction l generalizing acc with
  | nil => exact Or.inl ⟨rfl, by simp⟩
  | cons y t ih =>
    by_cases h : |acc| < |y|
    · have hstep : absStep acc y = y := by simp [absStep, h]
      rcases ih y with ⟨heq, hall⟩ | ⟨pre, post, hsplit, hlt, hpre, hpost⟩
      · refine Or.inr ⟨[], t, ?_, ?_, by simp, ?_⟩
        · simp [List.foldl_cons, hstep, heq]
        · rw [List.foldl_cons, hstep, heq]; exact h
        · rw [List.foldl_cons, hstep, heq]; exact hall
      · refine Or.inr ⟨y :: pre, post, ?_, ?_, ?_, ?_⟩
        · rw [List.foldl_cons, hstep, List.cons_append, ← hsplit]
        · rw [List.foldl_cons, hstep]
          exact lt_trans h hlt
        · rw [List.foldl_cons, hstep]
          intro z hz
          rcases List.mem_cons.mp hz with rfl | hz
          · exact hlt
          · exact hpre z hz
        · rw [List.foldl_cons, hstep]
          exact hpost
    · have hstep : absStep acc y = acc := by simp [absStep, h]
      rcases ih acc with ⟨heq, hall⟩ | ⟨pre, post, hsplit, hlt, hpre, hpost⟩
      · refine Or.inl ⟨by simp [List.foldl_cons, hstep, heq], ?_⟩
        intro z hz
        rcases List.mem_cons.mp hz with rfl | hz
        · exact not_lt.mp h
        · exact hall z hz
      · refine Or.inr ⟨y :: pre, post, ?_, ?_, ?_, ?_⟩
        · rw [List.foldl_cons, hstep, List.cons_append, ← hsplit]
        · rw [List.foldl_cons, hstep]; exact hlt
        · rw [List.foldl_cons, hstep]
          intro z hz
          rcases List.mem_cons.mp hz with rfl | hz
          · exact lt_of_le_of_lt (not_lt.mp h) hlt
          · exact hpre z hz
        · rw [List.foldl_cons, hstep]; exact hpost

/-- `halveLoop` computes a simultaneous repeated integer halving that lands
at or below 500 in both axes. -/
theorem halveLoop_spec (w h : ℕ) :
    ∃ k, halveLoop w h = (w / 2 ^ k, h / 2 ^ k) ∧
      w / 2 ^ k ≤ 500 ∧ h / 2 ^ k ≤ 500 := by
  by_cases hc : w > 500 ∨ h > 500
  · have hterm : w / 2 + h / 2 < w + h := by
      rcases hc with hw | hh
      · have h1 : w / 2 < w := Nat.div_lt_self (by omega) (by omega)
        have h2 : h / 2 ≤ h := Nat.div_le_self h 2
        omega
      · have h1 : h / 2 < h := Nat.div_lt_self (by omega) (by omega)
        have h2 : w / 2 ≤ w := Nat.div_le_self w 2
        omega
    obtain ⟨k, hk, h1, h2⟩ := halveLoop_spec (w / 2) (h / 2)
    refine ⟨k + 1, ?_, ?_, ?_⟩
    · rw [halveLoop, if_pos hc, hk]
      rw [Nat.div_div_eq_div_mul, Nat.div_div_eq_div_mul]
      ring_nf
    · rw [Nat.div_div_eq_div_mul] at h1
      calc w / 2 ^ (k + 1) = w / (2 * 2 ^ k) := by ring_nf
        _ ≤ 500 := h1
    · rw [Nat.div_div_eq_div_mul] at h2
      calc h / 2 ^ (k + 1) = h / (2 * 2 ^ k) := by ring_nf
        _ ≤ 500 := h2
  · exact ⟨0, by rw [halveLoop, if_neg hc]; simp, by simpa using (by omega : w ≤ 500),
      by simpa using (by omega : h ≤ 500)⟩
termination_by w + h
decreasing_by
  rcases hc with hw | hh
  · have : w / 2 < w := Nat.div_lt_self (by omega) (by omega)
    have : h / 2 ≤ h := Nat.div_le_self h 2
    omega
  · have : h / 2 < h := Nat.div_lt_self (by omega) (by omega)
    have : w / 2 ≤ w := Nat.div_le_self w 2
    omega

/-- `cvResize` produces an image of exactly the requested dimensions. -/
theorem cvResize_shape (a : Img) (w h : ℕ) :
    (cvResize a w h).map List.length = List.replicate h w := by
  simp [cvResize, List.map_map, Function.comp_def, List.map_eq_replicate_iff]

/-- Rowwise reconstruction: the two complementary masked selections sum to
the original row. -/
theorem maskedRow_sum : ∀ (mi ri : List Px), mi.length = ri.length →
    List.zipWith (fun p q : Px => (p.1 + q.1, p.2.1 + q.2.1, p.2.2 + q.2.2))
      (List.zipWith (fun mp ip => if maskSelects mp then ip else ((0:ℕ),(0:ℕ),(0:ℕ))) mi ri)
      (List.zipWith (fun mp ip => if !maskSelects mp then ip else ((0:ℕ),(0:ℕ),(0:ℕ))) mi ri)
      = ri
  | [], [], _ => rfl
  | [], _ :: _, h => by simp at h
  | _ :: _, [], h => by simp at h
  | mp :: mi, ip :: ri, h => by
    obtain ⟨a, b, c⟩ := ip
    have ht := maskedRow_sum mi ri (by simpa using h)
    simp only [List.zipWith_cons_cons]
    rw [ht]
    by_cases hk : maskSelects mp <;> simp [hk]

/-- Rowwise disjointness: at each position at least one of the two masked
selections is black. -/
theorem maskedRow_disjoint : ∀ (mi ri : List Px),
    List.Forall₂ (fun p q : Px => p = ((0:ℕ),(0:ℕ),(0:ℕ)) ∨ q = ((0:ℕ),(0:ℕ),(0:ℕ)))
      (List.zipWith (fun mp ip => if maskSelects mp then ip else ((0:ℕ),(0:ℕ),(0:ℕ))) mi ri)
      (List.zipWith (fun mp ip => if !maskSelects mp then ip else ((0:ℕ),(0:ℕ),(0:ℕ))) mi ri)
  | [], _ => by simp
  | _ :: _, [] => by simp
  | mp :: mi, ip :: ri => by
    refine List.Forall₂.cons ?_ (maskedRow_disjoint mi ri)
    by_cases hk : maskSelects mp <;> simp [hk]

/-- The foreground and background layers sum pixelwise to the segmented
image (pre-watermark). -/
theorem layers_reconstruct : ∀ (img mask : Img), SameShape img mask →
    imgSum (imgForeground img mask) (imgBackground img mask) = img
  | [], [], _ => rfl
  | [], _ :: _, h => by simp [SameShape] at h
  | _ :: _, [], h => by simp [SameShape] at h
  | i :: is, m :: ms, h => by
    have hh : i.length = m.length ∧ is.map List.length = ms.map List.length := by
      simpa [SameShape] using h
    have hrow := maskedRow_sum m i hh.1.symm
    have ht := layers_reconstruct is ms hh.2
    simp only [imgSum, imgForeground, imgBackground, maskedImage,
      List.zipWith_cons_cons] at ht ⊢
    rw [ht, hrow]

/-- The foreground and background layers are pixel-disjoint. -/
theorem layers_disjoint : ∀ (img mask : Img),
    List.Forall₂ (List.Forall₂ fun p q : Px =>
      p = ((0:ℕ),(0:ℕ),(0:ℕ)) ∨ q = ((0:ℕ),(0:ℕ),(0:ℕ)))
      (imgForeground img mask) (imgBackground img mask)
  | [], _ => by simp [imgForeground, imgBackground, maskedImage]
  | _ :: _, [] => by simp [imgForeground, imgBackground, maskedImage]
  | i :: is, m :: ms => by
    refine List.Forall₂.cons ?_ ?_
    · exact maskedRow_disjoint m i
    · exact layers_disjoint is ms

/-! ## Claim theorems -/

attribute [local semireducible] Rat.add Rat.mul Rat.inv Rat.sub in
/-- C1 (counterexample): `encode_image` does NOT clip the pixelwise sum to
[0, 255] — it wraps.  On the window `[0]` (brightness factor 0.7), a
grayscale 100 foreground pixel is adjusted to 70, and added to a background
pixel of 200 it yields `(70 + 200) mod 256 = 14`, whereas the claimed
saturating sum would give 255. -/
theorem C1_counterexample :
    encode_image [0] [[(100, 100, 100)]] [[(200, 200, 200)]] =
      some [[(14, 14, 14)]] ∧
    adjust_brightness [[(100, 100, 100)]] (7/10) = [[(70, 70, 70)]] ∧
    imgClipAdd [[(70, 70, 70)]] [[(200, 200, 200)]] = [[(255, 255, 255)]] ∧
    (some [[((14:ℕ), (14:ℕ), (14:ℕ))]] : Option Img) ≠
      some [[(255, 255, 255)]] := by
  refine ⟨by decide, by decide, by decide, by decide⟩

/-- C1 (amended): for every non-empty amplitude window, foreground and
background, the composite frame returned by `encode_image` equals the
pixelwise sum of the brightness-adjusted foreground and the (watermarked)
background with each 8-bit channel reduced modulo 256 (wrapping on
overflow), not clipped. -/
theorem C1_composite_wraps (amps : List ℚ) (fg bg : Img) (h : amps ≠ []) :
    ∃ f, brightnessFactor amps = some f ∧
      encode_image amps fg bg = some (imgWrapAdd (adjust_brightness fg f) bg) := by
  obtain ⟨x, xs, rfl⟩ := List.exists_cons_of_ne_nil h
  exact ⟨_, rfl, rfl⟩

/-- Witness for `C1_composite_wraps` at a concrete input. -/
theorem C1_composite_wraps_witness :
    ∃ f, brightnessFactor [0] = some f ∧
      encode_image [0] [[(100, 100, 100)]] [[(200, 200, 200)]] =
        some (imgWrapAdd (adjust_brightness [[(100, 100, 100)]] f)
          [[(200, 200, 200)]]) :=
  C1_composite_wraps [0] [[(100, 100, 100)]] [[(200, 200, 200)]]
    (List.cons_ne_nil 0 [])

/-- C2: for every non-empty amplitude window, the brightness factor used by
`encode_image` equals 0.7 plus the negation of the clamp to [-0.3, 0.3] of
the window element with maximum absolute value (first occurrence on ties),
and therefore always lies in [0.4, 1.0]. -/
theorem C2_brightness_factor (amps : List ℚ) (h : amps ≠ []) :
    ∃ m f, maxByAbs amps = some m ∧ IsFirstMaxAbs amps m ∧
      brightnessFactor amps = some f ∧
      f = 7/10 + -(npClip m (-3/10) (3/10)) ∧ 2/5 ≤ f ∧ f ≤ 1 := by
  obtain ⟨x, xs, rfl⟩ := List.exists_cons_of_ne_nil h
  have hclip1 : npClip (xs.foldl absStep x) (-3/10) (3/10) ≤ 3/10 := by
    unfold npClip; split_ifs <;> linarith
  have hclip2 : -3/10 ≤ npClip (xs.foldl absStep x) (-3/10) (3/10) := by
    unfold npClip; split_ifs <;> linarith
  refine ⟨xs.foldl absStep x, -(npClip (xs.foldl absStep x) (-3/10) (3/10)) + 7/10,
    rfl, ?_, rfl, by ring, by linarith, by linarith⟩
  rcases foldl_absStep_spec xs x with ⟨heq, hall⟩ | ⟨pre, post, hsplit, hlt, hpre, hpost⟩
  · refine ⟨[], xs, by rw [heq, List.nil_append], ?_, by simp⟩
    intro z hz
    rcases List.mem_cons.mp hz with rfl | hz
    · rw [heq]
    · rw [heq]; exact hall z hz
  · refine ⟨x :: pre, post, by rw [List.cons_append, ← hsplit], ?_, ?_⟩
    · intro z hz
      rcases List.mem_cons.mp hz with rfl | hz
      · exact le_of_lt hlt
      · rw [hsplit] at hz
        rcases List.mem_append.mp hz with hz | hz
        · exact le_of_lt (hpre z hz)
        · rcases List.mem_cons.mp hz with rfl | hz
          · exact le_refl _
          · exact hpost z hz
    · intro z hz
      rcases List.mem_cons.mp hz with rfl | hz
      · exact hlt
      · exact hpre z hz

/-- Witness for `C2_brightness_factor` at a concrete window (peak −1/5,
factor 9/10). -/
theorem C2_brightness_factor_witness :
    ∃ m f, maxByAbs [1/10, -1/5] = some m ∧ IsFirstMaxAbs [1/10, -1/5] m ∧
      brightnessFactor [1/10, -1/5] = some f ∧
      f = 7/10 + -(npClip m (-3/10) (3/10)) ∧ 2/5 ≤ f ∧ f ≤ 1 :=
  C2_brightness_factor [1/10, -1/5] (List.cons_ne_nil _ _)

/-- C4: for every masked input of matching shape, the foreground and
background layers produced by the segmentation step of `process_image` are
pixel-disjoint (at each position at least one layer is black), and their
pixelwise sum — taken before the watermark is applied — reconstructs the
(resized) input image exactly. -/
theorem C4_complementarity (img mask : Img) (hs : SameShape img mask) :
    imgSum (imgForeground img mask) (imgBackground img mask) = img ∧
    List.Forall₂ (List.Forall₂ fun p q : Px =>
      p = ((0:ℕ), (0:ℕ), (0:ℕ)) ∨ q = ((0:ℕ), (0:ℕ), (0:ℕ)))
      (imgForeground img mask) (imgBackground img mask) :=
  ⟨layers_reconstruct img mask hs, layers_disjoint img mask⟩

/-- Witness for `C4_complementarity` on a concrete 2×2 image and mask. -/
theorem C4_complementarity_witness :
    imgSum (imgForeground [[(1, 2, 3), (4, 5, 6)], [(7, 8, 9), (10, 11, 12)]]
        [[(255, 255, 255), (0, 0, 0)], [(0, 0, 0), (9, 9, 9)]])
      (imgBackground [[(1, 2, 3), (4, 5, 6)], [(7, 8, 9), (10, 11, 12)]]
        [[(255, 255, 255), (0, 0, 0)], [(0, 0, 0), (9, 9, 9)]]) =
      [[(1, 2, 3), (4, 5, 6)], [(7, 8, 9), (10, 11, 12)]] ∧
    List.Forall₂ (List.Forall₂ fun p q : Px =>
      p = ((0:ℕ), (0:ℕ), (0:ℕ)) ∨ q = ((0:ℕ), (0:ℕ), (0:ℕ)))
      (imgForeground [[(1, 2, 3), (4, 5, 6)], [(7, 8, 9), (10, 11, 12)]]
        [[(255, 255, 255), (0, 0, 0)], [(0, 0, 0), (9, 9, 9)]])
      (imgBackground [[(1, 2, 3), (4, 5, 6)], [(7, 8, 9), (10, 11, 12)]]
        [[(255, 255, 255), (0, 0, 0)], [(0, 0, 0), (9, 9, 9)]]) :=
  C4_complementarity _ _ rfl

/-- C5: `process_image` repeatedly halves both dimensions (integer
division) while either exceeds 500, so the output dimensions are at most
500 in both axes and are exact repeated integer halvings of the originals;
a mask, when present, is resized to exactly the same dimensions as the
image before segmentation. -/
theorem C5_resize_policy (w h : ℕ) (img mask : Img) :
    ∃ k, halveLoop w h = (w / 2 ^ k, h / 2 ^ k) ∧
      (halveLoop w h).1 ≤ 500 ∧ (halveLoop w h).2 ≤ 500 ∧
      SameShape (cvResize mask (halveLoop w h).1 (halveLoop w h).2)
        (cvResize img (halveLoop w h).1 (halveLoop w h).2) := by
  obtain ⟨k, hk, h1, h2⟩ := halveLoop_spec w h
  refine ⟨k, hk, by rw [hk]; exact h1, by rw [hk]; exact h2, ?_⟩
  unfold SameShape
  rw [cvResize_shape, cvResize_shape]

attribute [local semireducible] Rat.add Rat.mul Rat.inv Rat.sub in
/-- C6 (counterexample): the overlay loop is `for i in range(0, len - 2)`,
so for the two-sample window `[1, 2]` no segment at all is drawn, although
the claim (every pair of consecutive samples connected, no-op only for
length < 2) requires the segment between the two samples. -/
theorem C6_counterexample :
    draw_horz_sound 100 100 [1, 2] = some [] ∧
    drawHorzSoundClaimed 100 100 [1, 2] = some [((20, 47), (32, 43))] ∧
    (some [] : Option (List ((ℤ × ℤ) × (ℤ × ℤ)))) ≠
      some [((20, 47), (32, 43))] := by
  refine ⟨by decide, by decide, by decide⟩

/-- C6 (amended): when overlay is requested the raw (unclamped) window
samples are plotted left-to-right with vertical deflection proportional to
amplitude (positive amplitude deflecting upward), and the segments drawn
connect samples `i` and `i+1` exactly for `i < len − 2`: the final pair of
consecutive samples is left unconnected, and the drawing is a no-op for
every window of length less than 3 (length 0 raises, as `step_size_in_x`
divides by zero). -/
theorem C6_overlay_segments (H W : ℕ) (amps : List ℚ) (h : amps ≠ []) :
    draw_horz_sound H W amps =
      some ((List.range (amps.length - 2)).map (traceSegment H W amps)) ∧
    (amps.length < 3 → draw_horz_sound H W amps = some []) := by
  have hlen : amps.length ≠ 0 := fun hn => h (List.length_eq_zero.mp hn)
  constructor
  · rw [draw_horz_sound, if_neg hlen]
  · intro h3
    have h0 : amps.length - 2 = 0 := by omega
    rw [draw_horz_sound, if_neg hlen, h0]
    simp

/-- Witness for `C6_overlay_segments` at a concrete window of length 3
(exactly one segment drawn). -/
theorem C6_overlay_segments_witness :
    draw_horz_sound 100 100 [1, 2, 3] =
      some ((List.range ([1, 2, 3].length - 2)).map
        (traceSegment 100 100 [1, 2, 3])) ∧
    ([1, 2, 3].length < 3 → draw_horz_sound 100 100 [1, 2, 3] = some []) :=
  C6_overlay_segments 100 100 [1, 2, 3] (List.cons_ne_nil _ _)

/-- A nonnegative in-range index is left unchanged by Python slice
normalisation. -/
theorem sliceNorm_nonneg (n : ℕ) (i : ℤ) (h0 : 0 ≤ i) (hn : i ≤ n) :
    sliceNorm n i = i.toNat := by
  unfold sliceNorm Nat.min
  split_ifs <;> omega

/-- The head row of a replicated canvas has the canvas width. -/
theorem replicate_headD_length (h w : ℕ) (hpos : 0 < h) :
    ((List.replicate h (List.replicate w (0:ℕ))).headD []).length = w := by
  cases h with
  | zero => omega
  | succ n => simp [List.replicate_succ]

attribute [local semireducible] Rat.add Rat.mul Rat.inv Rat.sub in
/-- C3: for the frame rates the app offers (30, 60, 120, 240) and the
whole-second clip lengths the slider can produce (≤ 10 s), `buildVideo`
produces exactly `ceil(L / (1000/F))` frames — the trailing partial chunk
included — each with display duration 1/F seconds. -/
theorem C3_frame_count (c : Clip) (fg bg : Img) (F : ℕ)
    (hF : F = 30 ∨ F = 60 ∨ F = 120 ∨ F = 240)
    (hL : c.lenMs % 1000 = 0) (hL2 : c.lenMs ≤ 10000) :
    (buildVideo c fg bg F).frames.length =
      (⌈(c.lenMs : ℚ) / (1000 / (F : ℚ))⌉).toNat ∧
    ∀ fr ∈ (buildVideo c fg bg F).frames, fr.2 = 1 / (F : ℚ) := by
  constructor
  · simp only [buildVideo, List.length_map, List.length_range]
    rw [← qceil_eq]
    generalize c.lenMs = L at hL hL2
    obtain ⟨k, rfl⟩ : ∃ k, L = 1000 * k :=
      ⟨L / 1000, by omega⟩
    have hk10 : k ≤ 10 := by omega
    rcases hF with rfl | rfl | rfl | rfl <;> interval_cases k <;> decide
  · intro fr hfr
    simp only [buildVideo, List.mem_map] at hfr
    obtain ⟨i, _, rfl⟩ := hfr
    rfl

attribute [local semireducible] Rat.add Rat.mul Rat.inv Rat.sub in
/-- Witness for `C3_frame_count`: a 1000 ms clip (one sample at 1 Hz) at
60 fps — 60 frames of 1/60 s each. -/
theorem C3_frame_count_witness :
    (buildVideo ⟨1, [0]⟩ [] [] 60).frames.length =
      (⌈((Clip.lenMs ⟨1, [0]⟩ : ℚ)) / (1000 / (60 : ℚ))⌉).toNat ∧
    ∀ fr ∈ (buildVideo ⟨1, [0]⟩ [] [] 60).frames, fr.2 = 1 / (60 : ℚ) :=
  C3_frame_count ⟨1, [0]⟩ [] [] 60 (Or.inr (Or.inl rfl)) (by decide) (by decide)

/-- C7: for every input image whose channel count is not 3, every
(image, mask) pair of differing pixel dimensions (compared before any
resizing), and every mask whose channel count is not 3, the preparation
pipeline fails with an `InvalidInputError` from the validation stage, so no
foreground/background layers are produced. -/
theorem C7_validation (sign : Img1) (img : RawImage) (mask : Option RawImage)
    (hbad : img.channels ≠ 3 ∨
      (∃ m, mask = some m ∧ img.size ≠ m.size) ∨
      (∃ m, mask = some m ∧ m.channels ≠ 3)) :
    ∃ e, prepare sign img mask = .error (.invalid e) := by
  cases mask with
  | none =>
    rcases hbad with hc | ⟨m, hm, _⟩ | ⟨m, hm, _⟩
    · exact ⟨.imgChannels img.channels, by simp [prepare, loadImageChecks, hc]⟩
    · cases hm
    · cases hm
  | some m =>
    by_cases h1 : img.size = m.size
    · by_cases h2 : img.channels = 3
      · by_cases h3 : m.channels = 3
        · exfalso
          rcases hbad with hc | ⟨m', hm', hs⟩ | ⟨m', hm', hc'⟩
          · exact hc h2
          · cases hm'; exact hs h1
          · cases hm'; exact hc' h3
        · exact ⟨.maskChannels m.channels,
            by simp [prepare, loadImageChecks, h1, h2, h3]⟩
      · exact ⟨.imgChannels img.channels,
          by simp [prepare, loadImageChecks, h1, h2]⟩
    · exact ⟨.sizeMismatch img.size m.size,
        by simp [prepare, loadImageChecks, h1]⟩

/-- Witness for `C7_validation`: a 4-channel image with no mask is
rejected. -/
theorem C7_validation_witness :
    ∃ e, prepare [] ⟨[], 4⟩ none = .error (.invalid e) :=
  C7_validation [] ⟨[], 4⟩ none (Or.inl (by decide))

/-- C8: the audio track attached to `buildVideo`'s output is the original
cut clip round-tripped through lossless WAV export — sample-identical to
the input clip and independent of the chosen frame rate; it is not
reassembled from the per-frame chunks. -/
theorem C8_audio_fidelity (c : Clip) (fg bg : Img) (F F' : ℕ) :
    (buildVideo c fg bg F).audio = audioFileClip (exportWav c) ∧
    (buildVideo c fg bg F).audio.samples = c.samples ∧
    (buildVideo c fg bg F).audio.rate = c.rate ∧
    (buildVideo c fg bg F).audio = (buildVideo c fg bg F').audio :=
  ⟨rfl, rfl, rfl, rfl⟩

/-- C9: `encode_image` leaves the stored foreground and background arrays
unchanged (the brightness perturbation happens on freshly allocated
copies), and the returned composite is a freshly allocated array distinct
from both stored layers — with or without the overlay. -/
theorem C9_layers_immutable (amps : List ℚ) (fgId bgId : ℕ) (plot : Bool)
    (s : Store) (hfg : fgId < s.next) (hbg : bgId < s.next) (h : amps ≠ []) :
    ∃ rid s', encodeImageTrace amps fgId bgId plot s = some (rid, s') ∧
      s'.mem fgId = s.mem fgId ∧ s'.mem bgId = s.mem bgId ∧
      rid ≠ fgId ∧ rid ≠ bgId := by
  obtain ⟨x, xs, rfl⟩ := List.exists_cons_of_ne_nil h
  have h0 : fgId ≠ s.next := by omega
  have h1 : fgId ≠ s.next + 1 := by omega
  have h2 : fgId ≠ s.next + 2 := by omega
  have h3 : fgId ≠ s.next + 3 := by omega
  have h4 : fgId ≠ s.next + 4 := by omega
  have g0 : bgId ≠ s.next := by omega
  have g1 : bgId ≠ s.next + 1 := by omega
  have g2 : bgId ≠ s.next + 2 := by omega
  have g3 : bgId ≠ s.next + 3 := by omega
  have g4 : bgId ≠ s.next + 4 := by omega
  refine ⟨s.next + 4, _, rfl, ?_, ?_, by omega, by omega⟩ <;>
    cases plot <;>
      simp [encodeImageTrace, Store.alloc, Store.write, maxByAbs,
        h0, h1, h2, h3, h4, g0, g1, g2, g3, g4]

/-- Witness for `C9_layers_immutable` at a concrete store holding a 1×1
foreground (id 0) and background (id 1). -/
theorem C9_layers_immutable_witness :
    ∃ rid s',
      encodeImageTrace [1/2] 0 1 true
        ⟨fun i => if i = 0 then ofImg [[(10, 20, 30)]]
          else if i = 1 then ofImg [[(1, 2, 3)]] else [], 2⟩ = some (rid, s') ∧
      s'.mem 0 = Store.mem ⟨fun i => if i = 0 then ofImg [[(10, 20, 30)]]
          else if i = 1 then ofImg [[(1, 2, 3)]] else [], 2⟩ 0 ∧
      s'.mem 1 = Store.mem ⟨fun i => if i = 0 then ofImg [[(10, 20, 30)]]
          else if i = 1 then ofImg [[(1, 2, 3)]] else [], 2⟩ 1 ∧
      rid ≠ 0 ∧ rid ≠ 1 :=
  C9_layers_immutable [1/2] 0 1 true _ (by decide) (by decide)
    (List.cons_ne_nil _ _)

/-- C10 (counterexample): on a prepared image of height 20 with a scaled
glyph of height 30 (width within bounds), the watermark slice assignment
raises a NumPy broadcast `ValueError` — it is not the case that the glyph
is "silently misplaced or dropped rather than an error being raised". -/
theorem C10_counterexample :
    ∃ e, signStamp 20 500 (List.replicate 30 (List.replicate 45 255)) =
      .error e :=
  ⟨"could not broadcast input array into slice shape", by rfl⟩

/-- C10 (amended): the watermark stamping places the scaled glyph fully
inside the background at a 10-pixel inset from the bottom and right edges
exactly when both prepared dimensions are at least the glyph size plus 10;
for a smaller image the slice bounds become negative and wrap Python-style,
and the inset placement is lost: depending on the sizes the assignment
either raises a broadcast error or silently writes the glyph at a wrapped
position (never at the intended inset). -/
theorem C10_watermark_placement (h w : ℕ) (sign : Img1) :
    (sign.length + 10 ≤ h → (sign.headD []).length + 10 ≤ w →
      (∃ r, signStamp h w sign = .ok r) ∧
      signStampStart h w sign =
        (h - sign.length - 10, w - (sign.headD []).length - 10)) ∧
    ((h < sign.length + 10 ∨ w < (sign.headD []).length + 10) →
      (signStamp h w sign).isOk = true →
      ((signStampStart h w sign).1 : ℤ) ≠ (h : ℤ) - sign.length - 10 ∨
      ((signStampStart h w sign).2 : ℤ) ≠ (w : ℤ) -
        (sign.headD []).length - 10) := by
  constructor
  · intro hh hw
    have hstart : signStampStart h w sign =
        (h - sign.length - 10, w - (sign.headD []).length - 10) := by
      unfold signStampStart
      rw [sliceNorm_nonneg _ _ (by omega) (by omega),
        sliceNorm_nonneg _ _ (by omega) (by omega)]
      simp only [Prod.mk.injEq]
      constructor <;> omega
    refine ⟨?_, hstart⟩
    have e1 : sliceNorm h ((h : ℤ) - (sign.length : ℤ) - 10) =
        h - sign.length - 10 := by
      rw [sliceNorm_nonneg _ _ (by omega) (by omega)]; omega
    have e2 : sliceNorm h ((h : ℤ) - 10) = h - 10 := by
      rw [sliceNorm_nonneg _ _ (by omega) (by omega)]; omega
    have e3 : sliceNorm w ((w : ℤ) - ((sign.headD []).length : ℤ) - 10) =
        w - (sign.headD []).length - 10 := by
      rw [sliceNorm_nonneg _ _ (by omega) (by omega)]; omega
    have e4 : sliceNorm w ((w : ℤ) - 10) = w - 10 := by
      rw [sliceNorm_nonneg _ _ (by omega) (by omega)]; omega
    unfold signStamp npSliceAssign2d
    rw [List.length_replicate, replicate_headD_length h w (by omega)]
    dsimp only
    rw [e1, e2, e3, e4]
    have hcond : (sign.length = h - 10 - (h - sign.length - 10) ∨
        sign.length = 1) ∧
        ((sign.headD []).length = w - 10 - (w - (sign.headD []).length - 10) ∨
        (sign.headD []).length = 1) :=
      ⟨Or.inl (by omega), Or.inl (by omega)⟩
    rw [if_pos hcond]
    exact ⟨_, rfl⟩
  · intro hsmall _
    rcases hsmall with hs | hs
    · left
      have hnn : (0 : ℤ) ≤ ((signStampStart h w sign).1 : ℤ) :=
        Int.natCast_nonneg _
      omega
    · right
      have hnn : (0 : ℤ) ≤ ((signStampStart h w sign).2 : ℤ) :=
        Int.natCast_nonneg _
      omega

/-- Witness for `C10_watermark_placement`: a 100×200 background with a
30×45 glyph places the glyph at rows 60–89, columns 145–189 (10-pixel
inset), while a 9-row background with a 2×3 glyph that the assignment
accepts ends up at a wrapped position, not the intended negative start. -/
theorem C10_watermark_placement_witness :
    ((∃ r, signStamp 100 200 (List.replicate 30 (List.replicate 45 255)) =
        .ok r) ∧
      signStampStart 100 200 (List.replicate 30 (List.replicate 45 255)) =
        (60, 145)) ∧
    ((signStamp 9 500 (List.replicate 2 (List.replicate 3 255))).isOk = true →
      ((signStampStart 9 500 (List.replicate 2 (List.replicate 3 255))).1 : ℤ) ≠
        (9 : ℤ) - 2 - 10 ∨
      ((signStampStart 9 500 (List.replicate 2 (List.replicate 3 255))).2 : ℤ) ≠
        (500 : ℤ) - 3 - 10) :=
  ⟨(C10_watermark_placement 100 200
      (List.replicate 30 (List.replicate 45 255))).1 (by decide) (by decide),
   fun hok => (C10_watermark_placement 9 500
      (List.replicate 2 (List.replicate 3 255))).2 (Or.inl (by decide)) hok⟩

end VisSound
